import Mathlib

/-!
# Shallow embedding of the SPAI agent-runtime core

This file embeds the memory subsystem (`src/memory.rs`), the sleep-time
consolidator's archival step (`src/sleeptime.rs`) and the background run
executor (`src/background.rs`) of the SPAI repository as pure Lean
functions, and proves (or refutes) the frozen specification claims about
them.

Modelling conventions:
* Rust `Uuid` identifiers are modelled as `Nat`.
* Rust `DateTime<Utc>` timestamps are modelled as `Nat` (seconds).  The
  only arithmetic the code performs on timestamps is `now - updated_at >
  Duration::hours(1)`; on `Nat` the truncated subtraction gives the same
  boolean outcome as chrono's signed subtraction.
* Rust `String::len` is modelled as `String.length`.
* `tokio::sync::RwLock`-guarded in-place mutation (`&self` methods that
  mutate behind a lock) is modelled by explicit state passing: each
  mutating operation returns the pair `(result, new state)`; on an error
  the returned state is the unchanged input state, mirroring the fact
  that the Rust code returns `Err` before performing any mutation.
* `HashMap<K, V>` is modelled as a list of entries; the executor keys the
  list by the run id, the memory stores the blocks themselves (each block
  carries its id).  A `HashMap` has unique keys, so theorems whose truth
  depends on key uniqueness carry a `Nodup` hypothesis on the ids.
* Every error surfaced by the embedded modules is built in the source with
  `Error::config(format!(...))`.  The inductive `Err` below has one
  constructor per distinct `Error::config` call site, carrying the data
  that the corresponding format string interpolates.
-/

/-- Errors of the embedded core.  Each constructor corresponds to one
`Error::config(format!(...))` site in the source:
* `runNotFound id` — "Run {} not found" (background.rs)
* `handleAlreadyConsumed` — "Run already completed or handle taken"
* `taskJoinFailure msg` — "Failed to join task: {}"
* `blockNotFound id` — "Memory block {} not found" (memory.rs)
* `sharedBlockNotFound id` — "Shared block {} not found"
* `blockSizeExceeded label max got` — "Memory block {} value exceeds max size {} (got {})"
* `contextBudgetExceeded label current bsize maxctx` —
  "Adding block {} would exceed max context size ({} + {} > {})" -/
inductive Err where
  | runNotFound (id : Nat)
  | handleAlreadyConsumed
  | taskJoinFailure (msg : String)
  | blockNotFound (id : Nat)
  | sharedBlockNotFound (id : Nat)
  | blockSizeExceeded (label : String) (max got : Nat)
  | contextBudgetExceeded (label : String) (current bsize maxctx : Nat)
deriving DecidableEq, Repr

/-- `MemoryBlock` (memory.rs lines 46-74). -/
structure MemoryBlock where
  id : Nat
  label : String
  description : String
  value : String
  max_size : Option Nat
  in_context : Bool
  created_at : Nat
  updated_at : Nat
  metadata : List (String × String)
deriving DecidableEq, Repr

namespace MemoryBlock

/-- `MemoryBlock::new` (memory.rs lines 78-91): fresh block, default
in-context, both timestamps set to now.  The fresh uuid is passed in. -/
def new (id : Nat) (label value : String) (now : Nat) : MemoryBlock :=
  { id := id
    label := label
    description := ""
    value := value
    max_size := none
    in_context := true
    created_at := now
    updated_at := now
    metadata := [] }

/-- `MemoryBlock::with_description` (memory.rs lines 94-102). -/
def with_description (id : Nat) (label description value : String) (now : Nat) :
    MemoryBlock :=
  { new id label value now with description := description }

/-- `MemoryBlock::update_value` (memory.rs lines 105-123): rejects a value
longer than `max_size` before any mutation, otherwise stores the value
and refreshes `updated_at`. -/
def update_value (b : MemoryBlock) (new_val : String) (now : Nat) :
    Except Err MemoryBlock :=
  match b.max_size with
  | some max =>
      if new_val.length > max then
        .error (.blockSizeExceeded b.label max new_val.length)
      else
        .ok { b with value := new_val, updated_at := now }
  | none => .ok { b with value := new_val, updated_at := now }

/-- `MemoryBlock::set_in_context` (memory.rs lines 132-135). -/
def set_in_context (b : MemoryBlock) (flag : Bool) (now : Nat) : MemoryBlock :=
  { b with in_context := flag, updated_at := now }

/-- `MemoryBlock::size` (memory.rs lines 138-140). -/
def size (b : MemoryBlock) : Nat :=
  b.value.length

end MemoryBlock

/-- `StorageBackend` (memory.rs lines 173-183). -/
inductive StorageBackend where
  | sqlite (path : String)
  | postgres (connection_string : String)
  | memory
deriving DecidableEq, Repr

/-- `MemoryConfig` (memory.rs lines 144-157). -/
structure MemoryConfig where
  max_context_size : Nat
  enable_agentic_control : Bool
  enable_sleeptime : Bool
  storage_backend : StorageBackend
deriving DecidableEq, Repr

/-- `MessageEntry` (memory.rs lines 205-224). -/
structure MessageEntry where
  id : Nat
  timestamp : Nat
  role : String
  content : String
  tool_calls : Option (List String)
  metadata : List (String × String)
deriving DecidableEq, Repr

/-- `AgentMemory` (memory.rs lines 186-202).  The `blocks` HashMap is
modelled as the list of its values (each block carries its key `id`). -/
structure AgentMemory where
  agent_id : Nat
  blocks : List MemoryBlock
  shared_blocks : List Nat
  config : MemoryConfig
  message_history : List MessageEntry
deriving DecidableEq, Repr

/-- `HashMap::get` on the block map: the entry whose key is `id`. -/
def findBlock (l : List MemoryBlock) (id : Nat) : Option MemoryBlock :=
  l.find? (fun b => b.id == id)

/-- `HashMap::get_mut` followed by an in-place update: rewrite the entry
whose key is `id`.  (With unique ids this touches exactly one entry.) -/
def updateBlock (l : List MemoryBlock) (id : Nat) (f : MemoryBlock → MemoryBlock) :
    List MemoryBlock :=
  l.map (fun b => if b.id == id then f b else b)

/-- `HashMap::insert` keyed by `block.id`: replace an existing entry with
the same key, or add a new entry. -/
def insertBlock (l : List MemoryBlock) (b : MemoryBlock) : List MemoryBlock :=
  if l.any (fun x => x.id == b.id) then
    l.map (fun x => if x.id == b.id then b else x)
  else
    l ++ [b]

/-- `HashMap::remove` keyed by `id`. -/
def removeBlock (l : List MemoryBlock) (id : Nat) : List MemoryBlock :=
  l.filter (fun b => !(b.id == id))

namespace AgentMemory

/-- `AgentMemory::new` (memory.rs lines 228-236). -/
def new (agent_id : Nat) (config : MemoryConfig) : AgentMemory :=
  { agent_id := agent_id
    blocks := []
    shared_blocks := []
    config := config
    message_history := [] }

/-- `AgentMemory::add_block` (memory.rs lines 239-244): unconditional
insert, returns the block's id.  No budget or size check is performed. -/
def add_block (m : AgentMemory) (block : MemoryBlock) :
    Except Err Nat × AgentMemory :=
  (.ok block.id, { m with blocks := insertBlock m.blocks block })

/-- `AgentMemory::get_block` (memory.rs lines 247-250). -/
def get_block (m : AgentMemory) (id : Nat) : Option MemoryBlock :=
  findBlock m.blocks id

/-- `AgentMemory::update_block` (memory.rs lines 253-262): delegates to
`MemoryBlock::update_value`; a failing update leaves the map untouched. -/
def update_block (m : AgentMemory) (id : Nat) (new_value : String) (now : Nat) :
    Except Err Unit × AgentMemory :=
  match findBlock m.blocks id with
  | some block =>
      match block.update_value new_value now with
      | .ok updated => (.ok (), { m with blocks := updateBlock m.blocks id (fun _ => updated) })
      | .error e => (.error e, m)
  | none => (.error (.blockNotFound id), m)

/-- `AgentMemory::delete_block` (memory.rs lines 265-273). -/
def delete_block (m : AgentMemory) (id : Nat) : Except Err Unit × AgentMemory :=
  if (m.blocks.any (fun b => b.id == id)) then
    (.ok (), { m with blocks := removeBlock m.blocks id })
  else
    (.error (.blockNotFound id), m)

/-- `AgentMemory::attach_shared_block` (memory.rs lines 276-281):
idempotent append of a reference. -/
def attach_shared_block (m : AgentMemory) (block_id : Nat) : AgentMemory :=
  if m.shared_blocks.contains block_id then m
  else { m with shared_blocks := m.shared_blocks ++ [block_id] }

/-- `AgentMemory::in_context_blocks` (memory.rs lines 284-291). -/
def in_context_blocks (m : AgentMemory) : List MemoryBlock :=
  m.blocks.filter (fun b => b.in_context)

/-- `AgentMemory::out_of_context_blocks` (memory.rs lines 294-301). -/
def out_of_context_blocks (m : AgentMemory) : List MemoryBlock :=
  m.blocks.filter (fun b => !b.in_context)

/-- `AgentMemory::context_size` (memory.rs lines 304-307). -/
def context_size (m : AgentMemory) : Nat :=
  (m.in_context_blocks.map MemoryBlock.size).sum

/-- `AgentMemory::move_out_of_context` (memory.rs lines 310-319):
unconditional flag flip for an existing block. -/
def move_out_of_context (m : AgentMemory) (id : Nat) (now : Nat) :
    Except Err Unit × AgentMemory :=
  match findBlock m.blocks id with
  | some _ =>
      (.ok (), { m with blocks := updateBlock m.blocks id (fun b => b.set_in_context false now) })
  | none => (.error (.blockNotFound id), m)

/-- The in-context total excluding the target, as computed by
`move_into_context` (memory.rs lines 326-330). -/
def current_size_excluding (m : AgentMemory) (id : Nat) : Nat :=
  ((m.blocks.filter (fun b => b.in_context && !(b.id == id))).map MemoryBlock.size).sum

/-- `AgentMemory::move_into_context` (memory.rs lines 322-350): budget
check against the in-context total excluding the target; on violation the
state is returned unchanged. -/
def move_into_context (m : AgentMemory) (id : Nat) (now : Nat) :
    Except Err Unit × AgentMemory :=
  let current_size := m.current_size_excluding id
  match findBlock m.blocks id with
  | none => (.error (.blockNotFound id), m)
  | some block =>
      if current_size + block.size > m.config.max_context_size then
        (.error (.contextBudgetExceeded block.label current_size block.size
                  m.config.max_context_size), m)
      else
        (.ok (), { m with blocks := updateBlock m.blocks id (fun b => b.set_in_context true now) })

/-- `AgentMemory::add_message` (memory.rs lines 353-367). -/
def add_message (m : AgentMemory) (msg_id : Nat) (role content : String) (now : Nat) :
    Nat × AgentMemory :=
  (msg_id,
   { m with message_history := m.message_history ++
       [{ id := msg_id, timestamp := now, role := role, content := content,
          tool_calls := none, metadata := [] }] })

/-- `AgentMemory::get_recent_messages` (memory.rs lines 370-374): the
suffix of the log of length at most `limit`. -/
def get_recent_messages (m : AgentMemory) (limit : Nat) : List MessageEntry :=
  m.message_history.drop (m.message_history.length - limit)

/-- `AgentMemory::search_messages` (memory.rs lines 377-384). -/
def search_messages (m : AgentMemory) (query : String) : List MessageEntry :=
  m.message_history.filter (fun msg => (msg.content.splitOn query).length > 1)

end AgentMemory

/-- `SharedMemoryManager` (memory.rs lines 460-464). -/
structure SharedMemoryManager where
  blocks : List MemoryBlock
deriving DecidableEq, Repr

namespace SharedMemoryManager

/-- `SharedMemoryManager::new` (memory.rs lines 467-471). -/
def new : SharedMemoryManager := { blocks := [] }

/-- `SharedMemoryManager::create_block` (memory.rs lines 474-487). -/
def create_block (s : SharedMemoryManager) (id : Nat)
    (label description value : String) (now : Nat) : Nat × SharedMemoryManager :=
  let block := MemoryBlock.with_description id label description value now
  (id, { s with blocks := insertBlock s.blocks block })

/-- `SharedMemoryManager::get_block` (memory.rs lines 490-493). -/
def get_block (s : SharedMemoryManager) (id : Nat) : Option MemoryBlock :=
  findBlock s.blocks id

/-- `SharedMemoryManager::update_block` (memory.rs lines 496-505). -/
def update_block (s : SharedMemoryManager) (id : Nat) (new_value : String) (now : Nat) :
    Except Err Unit × SharedMemoryManager :=
  match findBlock s.blocks id with
  | some block =>
      match block.update_value new_value now with
      | .ok updated => (.ok (), { s with blocks := updateBlock s.blocks id (fun _ => updated) })
      | .error e => (.error e, s)
  | none => (.error (.sharedBlockNotFound id), s)

end SharedMemoryManager

/-! ## Sleep-time consolidator: the archival step (sleeptime.rs) -/

/-- The archival condition of `SleepTimeAgent::perform_archival`
(sleeptime.rs lines 196-204): the block was last updated more than one
hour ago and its label is none of the protected labels. -/
def archivable (b : MemoryBlock) (now : Nat) : Bool :=
  decide (now - b.updated_at > 3600) &&
  !(b.label == "persona") &&
  !(b.label == "organization") &&
  !(b.label == "system")

/-- `SleepTimeAgent::perform_archival` (sleeptime.rs lines 191-210): take
a snapshot of the in-context blocks, then move each archivable one out of
context; the `?` on `move_out_of_context` aborts the loop on the first
error. -/
def perform_archival (m : AgentMemory) (now : Nat) : Except Err Unit × AgentMemory :=
  m.in_context_blocks.foldl
    (fun acc block =>
      match acc.1 with
      | .error _ => acc
      | .ok _ =>
          if archivable block now then acc.2.move_out_of_context block.id now
          else acc)
    (.ok (), m)

/-! ## Background executor (background.rs) -/

/-- `RunStatus` (background.rs lines 76-88). -/
inductive RunStatus where
  | queued
  | running
  | completed
  | failed (error : String)
  | cancelled
deriving DecidableEq, Repr

/-- `RunEventType` (background.rs lines 107-133). -/
inductive RunEventType where
  | started
  | thought
  | toolCall
  | toolResult
  | output
  | completed
  | failed
  | progress
deriving DecidableEq, Repr

/-- `RunEvent` (background.rs lines 91-104).  The `serde_json::Value`
payload is modelled as an opaque string. -/
structure RunEvent where
  seq_id : Nat
  timestamp : Nat
  event_type : RunEventType
  data : String
deriving DecidableEq, Repr

/-- `RunMetadata` (background.rs lines 136-167). -/
structure RunMetadata where
  run_id : Nat
  agent_name : String
  input : String
  status : RunStatus
  created_at : Nat
  started_at : Option Nat
  completed_at : Option Nat
  total_events : Nat
  last_seq_id : Nat
  metadata : List (String × String)
deriving DecidableEq, Repr

/-- The `tokio::task::JoinHandle` kept in a run — the run's completion
ticket.  Its only observable in the registry model is its identity. -/
structure TaskHandle where
  handle_id : Nat
deriving DecidableEq, Repr

/-- `BackgroundRun` (background.rs lines 170-179). -/
structure BackgroundRun where
  metadata : RunMetadata
  events : List RunEvent
  task_handle : Option TaskHandle
deriving DecidableEq, Repr

/-- `BackgroundExecutor` (background.rs lines 182-185): the run map,
modelled as a list of `(RunId, BackgroundRun)` entries. -/
structure BackgroundExecutor where
  runs : List (Nat × BackgroundRun)
deriving DecidableEq, Repr

/-- The event-append step the executor repeats at every event site
(background.rs lines 227-238, 264-287, 294-305, 430-441): the new event
takes `last_seq_id` as its `seq_id`, is pushed at the end, and
`last_seq_id`/`total_events` are bumped. -/
def appendEvent (run : BackgroundRun) (ty : RunEventType) (data : String) (now : Nat) :
    BackgroundRun :=
  let event : RunEvent :=
    { seq_id := run.metadata.last_seq_id, timestamp := now, event_type := ty, data := data }
  { run with
    events := run.events ++ [event]
    metadata := { run.metadata with
                  last_seq_id := run.metadata.last_seq_id + 1
                  total_events := run.metadata.total_events + 1 } }

/-- The initial `BackgroundRun` registered by `execute_async`
(background.rs lines 201-214, 314-318): `Queued`, empty event log, the
spawned task's handle held as the completion ticket. -/
def newRun (run_id : Nat) (agent_name input : String) (now : Nat) (h : TaskHandle) :
    BackgroundRun :=
  { metadata :=
      { run_id := run_id
        agent_name := agent_name
        input := input
        status := .queued
        created_at := now
        started_at := none
        completed_at := none
        total_events := 0
        last_seq_id := 0
        metadata := [] }
    events := []
    task_handle := some h }

/-- The first mutation of the spawned task (background.rs lines 219-240):
status `Running`, `started_at` stamped, `Started` event appended. -/
def runStarted (run : BackgroundRun) (agent_name input : String) (now : Nat) :
    BackgroundRun :=
  appendEvent
    { run with metadata := { run.metadata with status := .running, started_at := some now } }
    .started ("agent: " ++ agent_name ++ ", input: " ++ input) now

/-- The success path of the spawned task (background.rs lines 249-288):
`completed_at` stamped, status `Completed`, an `Output` event followed by
a `Completed` event. -/
def runSucceeded (run : BackgroundRun) (content : String) (tool_calls : Nat) (now : Nat) :
    BackgroundRun :=
  let run := { run with metadata := { run.metadata with
                 completed_at := some now, status := .completed } }
  let run := appendEvent run .output
    ("content: " ++ content ++ ", tool_calls: " ++ toString tool_calls) now
  appendEvent run .completed "" now

/-- The failure path of the spawned task (background.rs lines 249,
289-306): `completed_at` stamped, status `Failed`, a `Failed` event. -/
def runFailed (run : BackgroundRun) (e : String) (now : Nat) : BackgroundRun :=
  let run := { run with metadata := { run.metadata with
                 completed_at := some now, status := .failed e } }
  appendEvent run .failed ("error: " ++ e) now

/-- The per-run part of `cancel_run` (background.rs lines 425-442): only
if the completion ticket is still held is it taken and aborted, the
status set to `Cancelled`, and a `Failed`-typed cancellation event
appended; otherwise nothing happens. -/
def cancelStep (run : BackgroundRun) (now : Nat) : BackgroundRun :=
  match run.task_handle with
  | none => run
  | some _ =>
      appendEvent
        { run with
          task_handle := none
          metadata := { run.metadata with status := .cancelled, completed_at := some now } }
        .failed "error: Cancelled by user" now

/-- `HashMap::get` on the run map. -/
def findRun (ex : BackgroundExecutor) (run_id : Nat) : Option BackgroundRun :=
  (ex.runs.find? (fun p => p.1 == run_id)).map Prod.snd

/-- `HashMap::get_mut` + in-place update on the run map. -/
def setRun (ex : BackgroundExecutor) (run_id : Nat) (r : BackgroundRun) :
    BackgroundExecutor :=
  { runs := ex.runs.map (fun p => if p.1 == run_id then (p.1, r) else p) }

namespace BackgroundExecutor

/-- `BackgroundExecutor::new` (background.rs lines 189-193). -/
def new : BackgroundExecutor := { runs := [] }

/-- The registration performed by `execute_async` (background.rs lines
196-324): insert a fresh `Queued` run holding the spawned task's handle
and return its id.  (The spawned task's own mutations are modelled by
`runStarted` / `runSucceeded` / `runFailed`.) -/
def execute_async (ex : BackgroundExecutor) (run_id : Nat)
    (agent_name input : String) (now : Nat) (h : TaskHandle) :
    Nat × BackgroundExecutor :=
  (run_id, { runs := ex.runs ++ [(run_id, newRun run_id agent_name input now h)] })

/-- `BackgroundExecutor::get_run_metadata` (background.rs lines 327-332). -/
def get_run_metadata (ex : BackgroundExecutor) (run_id : Nat) :
    Except Err RunMetadata :=
  match findRun ex run_id with
  | some r => .ok r.metadata
  | none => .error (.runNotFound run_id)

/-- `BackgroundExecutor::stream_events` (background.rs lines 335-357). -/
def stream_events (ex : BackgroundExecutor) (run_id : Nat)
    (starting_after : Option Nat) : Except Err (List RunEvent) :=
  match findRun ex run_id with
  | none => .error (.runNotFound run_id)
  | some run =>
      match starting_after with
      | some after => .ok (run.events.filter (fun e => decide (e.seq_id > after)))
      | none => .ok run.events

/-- `PaginatedEvents` (background.rs lines 489-502). -/
structure PaginatedEvents where
  events : List RunEvent
  next_cursor : Option Nat
  has_more : Bool
  total_events : Nat
deriving DecidableEq, Repr

/-- The start index located by `get_events_paginated` (background.rs
lines 372-379): position of the first event past the cursor, or the log
length when every event is at or before the cursor. -/
def pageStart (events : List RunEvent) (cursor : Option Nat) : Nat :=
  match cursor with
  | some cursor_seq =>
      match events.findIdx? (fun e => decide (e.seq_id > cursor_seq)) with
      | some i => i
      | none => events.length
  | none => 0

/-- `BackgroundExecutor::get_events_paginated` (background.rs lines
360-393). -/
def get_events_paginated (ex : BackgroundExecutor) (run_id : Nat)
    (cursor : Option Nat) (limit : Nat) : Except Err PaginatedEvents :=
  match findRun ex run_id with
  | none => .error (.runNotFound run_id)
  | some run =>
      let start_idx := pageStart run.events cursor
      let end_idx := min (start_idx + limit) run.events.length
      let events := (run.events.drop start_idx).take (end_idx - start_idx)
      .ok { events := events
            next_cursor := events.getLast?.map RunEvent.seq_id
            has_more := decide (end_idx < run.events.length)
            total_events := run.metadata.total_events }

/-- `BackgroundExecutor::wait_for_completion` (background.rs lines
396-415): take the completion ticket out of the registry; if it was
already taken, fail with `HandleAlreadyConsumed` ("Run already completed
or handle taken").  The model returns the taken ticket; awaiting it is
the external part of the call. -/
def wait_for_completion (ex : BackgroundExecutor) (run_id : Nat) :
    Except Err TaskHandle × BackgroundExecutor :=
  match findRun ex run_id with
  | none => (.error (.runNotFound run_id), ex)
  | some run =>
      match run.task_handle with
      | none => (.error .handleAlreadyConsumed, ex)
      | some h => (.ok h, setRun ex run_id { run with task_handle := none })

/-- `BackgroundExecutor::cancel_run` (background.rs lines 418-445). -/
def cancel_run (ex : BackgroundExecutor) (run_id : Nat) (now : Nat) :
    Except Err Unit × BackgroundExecutor :=
  match findRun ex run_id with
  | none => (.error (.runNotFound run_id), ex)
  | some run => (.ok (), setRun ex run_id (cancelStep run now))

end BackgroundExecutor

/-- One event-producing mutation of a run, as performed by the executor's
task body or by `cancel_run`'s per-run step.  Traces of these operations
are the "sequences of event appends" of the specification. -/
inductive ExecOp where
  | opStarted (agent_name input : String) (now : Nat)
  | opSucceeded (content : String) (tool_calls : Nat) (now : Nat)
  | opFailed (e : String) (now : Nat)
  | opCancel (now : Nat)
deriving DecidableEq, Repr

/-- Apply one executor operation to a run. -/
def applyOp (run : BackgroundRun) : ExecOp → BackgroundRun
  | .opStarted a i n => runStarted run a i n
  | .opSucceeded c t n => runSucceeded run c t n
  | .opFailed e n => runFailed run e n
  | .opCancel n => cancelStep run n

/-- A run after an arbitrary trace of executor operations. -/
def runTrace (run : BackgroundRun) (ops : List ExecOp) : BackgroundRun :=
  ops.foldl applyOp run

/-! ## Helper lemmas: context-budget arithmetic over the block list -/

/-- Sum of sizes of the in-context blocks of a list (the value of
`AgentMemory::context_size` on that list). -/
def ctxSum (l : List MemoryBlock) : Nat :=
  ((l.filter fun b => b.in_context).map MemoryBlock.size).sum

/-- Sum of sizes of the in-context blocks other than `id` (the
`current_size` computed inside `move_into_context`). -/
def exclSum (l : List MemoryBlock) (id : Nat) : Nat :=
  ((l.filter fun b => b.in_context && !(b.id == id)).map MemoryBlock.size).sum

theorem context_size_eq_ctxSum (m : AgentMemory) : m.context_size = ctxSum m.blocks := rfl

theorem current_size_excluding_eq_exclSum (m : AgentMemory) (id : Nat) :
    m.current_size_excluding id = exclSum m.blocks id := rfl

theorem exclSum_le_ctxSum (l : List MemoryBlock) (id : Nat) : exclSum l id ≤ ctxSum l := by
  induction l with
  | nil => simp [exclSum, ctxSum]
  | cons b t ih =>
      by_cases hc : b.in_context <;> by_cases hid : b.id = id <;>
        simp [exclSum, ctxSum, List.filter_cons, hc, hid] at ih ⊢ <;> omega

theorem updateBlock_id_not_mem (l : List MemoryBlock) (id : Nat)
    (f : MemoryBlock → MemoryBlock) (h : ∀ b ∈ l, b.id ≠ id) :
    updateBlock l id f = l := by
  induction l with
  | nil => rfl
  | cons b t ih =>
      have hb : b.id ≠ id := h b (by simp)
      simp [updateBlock, hb] at ih ⊢
      exact ih fun c hc => h c (by simp [hc])

theorem exclSum_eq_ctxSum_of_not_mem (l : List MemoryBlock) (id : Nat)
    (h : ∀ b ∈ l, b.id ≠ id) : exclSum l id = ctxSum l := by
  induction l with
  | nil => rfl
  | cons b t ih =>
      have hb : b.id ≠ id := h b (by simp)
      have ih' := ih fun c hc => h c (by simp [hc])
      by_cases hc : b.in_context <;>
        simp [exclSum, ctxSum, List.filter_cons, hc, hb] at ih' ⊢ <;> omega

theorem exclSum_updateBlock_self (l : List MemoryBlock) (id : Nat)
    (f : MemoryBlock → MemoryBlock) (hf : ∀ b, (f b).id = b.id) :
    exclSum (updateBlock l id f) id = exclSum l id := by
  induction l with
  | nil => rfl
  | cons b t ih =>
      by_cases hid : b.id = id
      · simp [updateBlock, exclSum, List.filter_cons, hid, hf] at ih ⊢
        exact ih
      · by_cases hc : b.in_context <;>
          simp [updateBlock, exclSum, List.filter_cons, hid, hc] at ih ⊢ <;> omega

theorem ctxSum_updateBlock_false (l : List MemoryBlock) (id now : Nat) :
    ctxSum (updateBlock l id (fun b => b.set_in_context false now)) = exclSum l id := by
  induction l with
  | nil => rfl
  | cons b t ih =>
      by_cases hid : b.id = id
      · simp [updateBlock, ctxSum, exclSum, List.filter_cons, hid,
              MemoryBlock.set_in_context] at ih ⊢
        exact ih
      · by_cases hc : b.in_context <;>
          simp [updateBlock, ctxSum, exclSum, List.filter_cons, hid, hc] at ih ⊢ <;> omega

theorem findBlock_id (l : List MemoryBlock) (id : Nat) (blk : MemoryBlock)
    (h : findBlock l id = some blk) : blk.id = id := by
  have := List.find?_some h
  simpa using this

theorem findBlock_mem (l : List MemoryBlock) (id : Nat) (blk : MemoryBlock)
    (h : findBlock l id = some blk) : blk ∈ l :=
  List.mem_of_find?_eq_some h

theorem findBlock_cons_pos (b : MemoryBlock) (t : List MemoryBlock) (id : Nat)
    (h : b.id = id) : findBlock (b :: t) id = some b := by
  simp only [findBlock]
  exact List.find?_cons_of_pos _ (by simp [h])

theorem findBlock_cons_neg (b : MemoryBlock) (t : List MemoryBlock) (id : Nat)
    (h : ¬ b.id = id) : findBlock (b :: t) id = findBlock t id := by
  simp only [findBlock]
  exact List.find?_cons_of_neg _ (by simp [h])

theorem updateBlock_cons (b : MemoryBlock) (t : List MemoryBlock) (id : Nat)
    (f : MemoryBlock → MemoryBlock) :
    updateBlock (b :: t) id f =
      (if b.id = id then f b else b) :: updateBlock t id f := by
  by_cases h : b.id = id <;> simp [updateBlock, h]

theorem findBlock_updateBlock (l : List MemoryBlock) (id : Nat)
    (f : MemoryBlock → MemoryBlock) (hf : ∀ b, (f b).id = b.id)
    (blk : MemoryBlock) (h : findBlock l id = some blk) :
    findBlock (updateBlock l id f) id = some (f blk) := by
  induction l with
  | nil => simp [findBlock] at h
  | cons b t ih =>
      rw [updateBlock_cons]
      by_cases hid : b.id = id
      · rw [findBlock_cons_pos b t id hid] at h
        rw [if_pos hid, findBlock_cons_pos _ _ _ (by rw [hf]; exact hid)]
        simp at h
        rw [h]
      · rw [findBlock_cons_neg b t id hid] at h
        rw [if_neg hid, findBlock_cons_neg _ _ _ hid]
        exact ih h

theorem findBlock_isSome_of_mem (l : List MemoryBlock) (id : Nat)
    (h : ∃ c ∈ l, c.id = id) : ∃ blk, findBlock l id = some blk := by
  have : (l.find? (fun b => b.id == id)).isSome := by
    rw [List.find?_isSome]
    obtain ⟨c, hc, hcid⟩ := h
    exact ⟨c, hc, by simp [hcid]⟩
  obtain ⟨blk, hblk⟩ := Option.isSome_iff_exists.mp this
  exact ⟨blk, hblk⟩

theorem ctxSum_updateBlock_true (l : List MemoryBlock) (id now : Nat)
    (blk : MemoryBlock) (hnd : (l.map MemoryBlock.id).Nodup)
    (hfind : findBlock l id = some blk) :
    ctxSum (updateBlock l id (fun b => b.set_in_context true now)) =
      exclSum l id + blk.size := by
  induction l with
  | nil => simp [findBlock] at hfind
  | cons b t ih =>
      simp only [List.map_cons, List.nodup_cons] at hnd
      rw [updateBlock_cons]
      by_cases hid : b.id = id
      · rw [findBlock_cons_pos b t id hid] at hfind
        simp only [Option.some.injEq] at hfind
        subst hfind
        have hnone : ∀ c ∈ t, c.id ≠ id := by
          intro c hc hcid
          apply hnd.1
          rw [hid, ← hcid]
          exact List.mem_map_of_mem MemoryBlock.id hc
        rw [if_pos hid, updateBlock_id_not_mem t id _ hnone]
        have h1 : exclSum t id = ctxSum t := exclSum_eq_ctxSum_of_not_mem t id hnone
        simp [ctxSum, exclSum, List.filter_cons, hid, MemoryBlock.set_in_context,
              MemoryBlock.size] at h1 ⊢
        omega
      · rw [findBlock_cons_neg b t id hid] at hfind
        have ih' := ih hnd.2 hfind
        rw [if_neg hid]
        by_cases hc : b.in_context <;>
          simp [ctxSum, exclSum, List.filter_cons, hid, hc] at ih' ⊢ <;> omega

theorem ctxSum_decompose (l : List MemoryBlock) (id : Nat) (blk : MemoryBlock)
    (hnd : (l.map MemoryBlock.id).Nodup)
    (hfind : findBlock l id = some blk) (hctx : blk.in_context = true) :
    ctxSum l = exclSum l id + blk.size := by
  induction l with
  | nil => simp [findBlock] at hfind
  | cons b t ih =>
      simp only [List.map_cons, List.nodup_cons] at hnd
      by_cases hid : b.id = id
      · rw [findBlock_cons_pos b t id hid] at hfind
        simp only [Option.some.injEq] at hfind
        subst hfind
        have hnone : ∀ c ∈ t, c.id ≠ id := by
          intro c hc hcid
          apply hnd.1
          rw [hid, ← hcid]
          exact List.mem_map_of_mem MemoryBlock.id hc
        have h1 : exclSum t id = ctxSum t := exclSum_eq_ctxSum_of_not_mem t id hnone
        simp [ctxSum, exclSum, List.filter_cons, hid, hctx] at h1 ⊢
        omega
      · rw [findBlock_cons_neg b t id hid] at hfind
        have ih' := ih hnd.2 hfind
        by_cases hc : b.in_context <;>
          simp [ctxSum, exclSum, List.filter_cons, hid, hc] at ih' ⊢ <;> omega

theorem ctxSum_removeBlock_le (l : List MemoryBlock) (id : Nat) :
    ctxSum (removeBlock l id) ≤ ctxSum l := by
  induction l with
  | nil => simp [removeBlock]
  | cons b t ih =>
      by_cases hid : b.id = id <;> by_cases hc : b.in_context <;>
        simp [removeBlock, ctxSum, List.filter_cons, hid, hc] at ih ⊢ <;> omega

/-- Decidable equality on `Except`, so that concrete operation results can
be checked by `decide`. -/
instance {ε α : Type} [DecidableEq ε] [DecidableEq α] : DecidableEq (Except ε α) := fun a b =>
  match a, b with
  | .ok x, .ok y =>
      if h : x = y then isTrue (by subst h; rfl) else isFalse (fun hh => h (by injection hh))
  | .error x, .error y =>
      if h : x = y then isTrue (by subst h; rfl) else isFalse (fun hh => h (by injection hh))
  | .ok _, .error _ => isFalse (fun hh => Except.noConfusion hh)
  | .error _, .ok _ => isFalse (fun hh => Except.noConfusion hh)

/-! ## Scenario fixtures -/

/-- Block A of the spec scenario: size 60, in context. -/
def blockA : MemoryBlock := MemoryBlock.new 1 "A" (String.mk (List.replicate 60 'a')) 0

/-- Block B of the spec scenario: size 60, out of context. -/
def blockB : MemoryBlock :=
  { MemoryBlock.new 2 "B" (String.mk (List.replicate 60 'b')) 0 with in_context := false }

/-- The spec scenario memory: `max_context_size = 100`, blocks A and B. -/
def scenarioMemory : AgentMemory :=
  { agent_id := 0
    blocks := [blockA, blockB]
    shared_blocks := []
    config := { max_context_size := 100, enable_agentic_control := true,
                enable_sleeptime := false, storage_backend := .memory }
    message_history := [] }

/-- A memory with a zero context budget and no blocks. -/
def ceMemory : AgentMemory :=
  AgentMemory.new 0
    { max_context_size := 0, enable_agentic_control := true,
      enable_sleeptime := false, storage_backend := .memory }

/-- A block with `max_size := some 3`. -/
def cappedBlock : MemoryBlock :=
  { MemoryBlock.new 3 "capped" "ab" 0 with max_size := some 3 }

/-! ## Claims about the memory subsystem -/

/-- C4: `move_into_context(id)` on an existing block fails with
`ContextBudgetExceeded` and leaves all state unchanged exactly when the
in-context total excluding the target plus the target's size strictly
exceeds `max_context_size`; otherwise it succeeds and sets the target's
`in_context` flag.  Scenario: with `max_context_size = 100`, A (size 60,
in-context) and B (size 60, out-of-context), `move_into_context(B)`
fails; after `move_out_of_context(A)` it succeeds. -/
theorem claim_C4_move_into_context_budget (m : AgentMemory) (id now : Nat)
    (blk : MemoryBlock) (hfind : findBlock m.blocks id = some blk) :
    (m.move_into_context id now =
        (.error (.contextBudgetExceeded blk.label (m.current_size_excluding id)
           blk.size m.config.max_context_size), m)
      ↔ m.current_size_excluding id + blk.size > m.config.max_context_size) ∧
    (m.current_size_excluding id + blk.size ≤ m.config.max_context_size →
      (m.move_into_context id now).1 = .ok () ∧
      findBlock ((m.move_into_context id now).2).blocks id =
        some (blk.set_in_context true now)) ∧
    (scenarioMemory.move_into_context 2 10 =
      (.error (.contextBudgetExceeded "B" 60 60 100), scenarioMemory)) ∧
    ((((scenarioMemory.move_out_of_context 1 20).2).move_into_context 2 30).1 = .ok ()) := by
  refine ⟨?_, ?_, by decide, by decide⟩
  · by_cases hgt : m.current_size_excluding id + blk.size > m.config.max_context_size
    · simp [AgentMemory.move_into_context, hfind, hgt]
    · simp [AgentMemory.move_into_context, hfind, hgt]
  · intro hle
    have hgt : ¬ m.current_size_excluding id + blk.size > m.config.max_context_size := by omega
    have heq : m.move_into_context id now =
        (.ok (),
         { m with blocks := updateBlock m.blocks id fun b => b.set_in_context true now }) := by
      simp [AgentMemory.move_into_context, hfind, hgt]
    rw [heq]
    exact ⟨rfl, findBlock_updateBlock m.blocks id
      (fun b => b.set_in_context true now) (fun b => rfl) blk hfind⟩

/-- Closed instantiation of `claim_C4_move_into_context_budget` at the
scenario memory, discharging its hypothesis. -/
theorem claim_C4_witness :
    scenarioMemory.move_into_context 2 10 =
      (.error (.contextBudgetExceeded blockB.label (scenarioMemory.current_size_excluding 2)
         blockB.size scenarioMemory.config.max_context_size), scenarioMemory) :=
  (claim_C4_move_into_context_budget scenarioMemory 2 10 blockB (by decide)).1.mpr (by decide)

/-- Success characterization of `move_out_of_context` for an existing
block: the target's flag is cleared. -/
theorem move_out_of_context_ok (m : AgentMemory) (id now : Nat) (blk : MemoryBlock)
    (hfind : findBlock m.blocks id = some blk) :
    m.move_out_of_context id now =
      (.ok (), { m with blocks := updateBlock m.blocks id fun b => b.set_in_context false now }) := by
  simp [AgentMemory.move_out_of_context, hfind]

/-- Success characterization of `move_into_context` when the budget
check passes. -/
theorem move_into_context_ok (m : AgentMemory) (id now : Nat) (blk : MemoryBlock)
    (hfind : findBlock m.blocks id = some blk)
    (hle : m.current_size_excluding id + blk.size ≤ m.config.max_context_size) :
    m.move_into_context id now =
      (.ok (), { m with blocks := updateBlock m.blocks id fun b => b.set_in_context true now }) := by
  have hgt : ¬ (m.current_size_excluding id + blk.size > m.config.max_context_size) := by omega
  simp [AgentMemory.move_into_context, hfind, hgt]

/-- C8: on a memory satisfying the context budget, moving an in-context
block out of context and then back in succeeds and restores a block with
the same id and value among `in_context_blocks()`. -/
theorem claim_C8_move_out_then_in_restores (m : AgentMemory) (id now1 now2 : Nat)
    (blk : MemoryBlock) (hnd : (m.blocks.map MemoryBlock.id).Nodup)
    (hinv : m.context_size ≤ m.config.max_context_size)
    (hfind : findBlock m.blocks id = some blk) (hctx : blk.in_context = true) :
    ∃ m1 m2, m.move_out_of_context id now1 = (.ok (), m1) ∧
      m1.move_into_context id now2 = (.ok (), m2) ∧
      ∃ b ∈ m2.in_context_blocks, b.id = blk.id ∧ b.value = blk.value := by
  have hdec : ctxSum m.blocks = exclSum m.blocks id + blk.size :=
    ctxSum_decompose m.blocks id blk hnd hfind hctx
  have hfind1 : findBlock (updateBlock m.blocks id fun b => b.set_in_context false now1) id =
      some (blk.set_in_context false now1) :=
    findBlock_updateBlock m.blocks id (fun b => b.set_in_context false now1)
      (fun b => rfl) blk hfind
  have hfind2 : findBlock (updateBlock
      (updateBlock m.blocks id fun b => b.set_in_context false now1) id
      fun b => b.set_in_context true now2) id =
      some ((blk.set_in_context false now1).set_in_context true now2) :=
    findBlock_updateBlock _ id (fun b => b.set_in_context true now2)
      (fun b => rfl) _ hfind1
  refine ⟨{ m with blocks := updateBlock m.blocks id fun b => b.set_in_context false now1 }, { m with blocks := updateBlock (updateBlock m.blocks id fun b => b.set_in_context false now1) id fun b => b.set_in_context true now2 }, move_out_of_context_ok m id now1 blk hfind, ?_, ?_⟩
  · apply move_into_context_ok _ id now2 (blk.set_in_context false now1) hfind1
    show exclSum (updateBlock m.blocks id fun b => b.set_in_context false now1) id +
        blk.size ≤ m.config.max_context_size
    rw [exclSum_updateBlock_self m.blocks id (fun b => b.set_in_context false now1)
      (fun b => rfl)]
    rw [context_size_eq_ctxSum] at hinv
    omega
  · refine ⟨(blk.set_in_context false now1).set_in_context true now2, ?_, rfl, rfl⟩
    have hmem := findBlock_mem _ _ _ hfind2
    exact List.mem_filter.mpr ⟨hmem, rfl⟩

/-- Closed instantiation of `claim_C8_move_out_then_in_restores` at the
scenario memory and block A. -/
theorem claim_C8_witness :
    ∃ m1 m2, scenarioMemory.move_out_of_context 1 10 = (.ok (), m1) ∧
      m1.move_into_context 1 20 = (.ok (), m2) ∧
      ∃ b ∈ m2.in_context_blocks, b.id = blockA.id ∧ b.value = blockA.value :=
  claim_C8_move_out_then_in_restores scenarioMemory 1 10 20 blockA
    (by decide) (by decide) (by decide) (by decide)

/-- C2 (amended): the context-budget invariant is enforced only at
`move_into_context` — a violating move is rejected with the state
unchanged — and is preserved by `move_out_of_context`, `delete_block` and
`move_into_context`; `add_block` and `update_block` perform no budget
check (see the counterexample). -/
theorem claim_C2_budget_enforcement :
    (∀ (m : AgentMemory) (id now : Nat), m.context_size ≤ m.config.max_context_size →
        ((m.move_out_of_context id now).2).context_size ≤
          ((m.move_out_of_context id now).2).config.max_context_size) ∧
    (∀ (m : AgentMemory) (id : Nat), m.context_size ≤ m.config.max_context_size →
        ((m.delete_block id).2).context_size ≤
          ((m.delete_block id).2).config.max_context_size) ∧
    (∀ (m : AgentMemory) (id now : Nat), (m.blocks.map MemoryBlock.id).Nodup →
        m.context_size ≤ m.config.max_context_size →
        ((m.move_into_context id now).2).context_size ≤
          ((m.move_into_context id now).2).config.max_context_size) ∧
    (∀ (m : AgentMemory) (id now : Nat) (blk : MemoryBlock),
        findBlock m.blocks id = some blk →
        m.current_size_excluding id + blk.size > m.config.max_context_size →
        m.move_into_context id now =
          (.error (.contextBudgetExceeded blk.label (m.current_size_excluding id)
             blk.size m.config.max_context_size), m)) := by
  refine ⟨?_, ?_, ?_, ?_⟩
  · intro m id now hinv
    cases hfind : findBlock m.blocks id with
    | none => simpa [AgentMemory.move_out_of_context, hfind] using hinv
    | some blk =>
        rw [move_out_of_context_ok m id now blk hfind]
        rw [context_size_eq_ctxSum] at hinv ⊢
        have h1 := ctxSum_updateBlock_false m.blocks id now
        have h2 := exclSum_le_ctxSum m.blocks id
        simp only [] at h1 ⊢
        omega
  · intro m id hinv
    by_cases hmem : m.blocks.any (fun b => b.id == id)
    · have h1 := ctxSum_removeBlock_le m.blocks id
      rw [context_size_eq_ctxSum] at hinv ⊢
      simp only [AgentMemory.delete_block, hmem, if_pos]
      omega
    · simpa [AgentMemory.delete_block, hmem] using hinv
  · intro m id now hnd hinv
    cases hfind : findBlock m.blocks id with
    | none => simpa [AgentMemory.move_into_context, hfind] using hinv
    | some blk =>
        by_cases hgt : m.current_size_excluding id + blk.size > m.config.max_context_size
        · simpa [AgentMemory.move_into_context, hfind, hgt] using hinv
        · rw [move_into_context_ok m id now blk hfind (by omega)]
          rw [context_size_eq_ctxSum]
          have h1 := ctxSum_updateBlock_true m.blocks id now blk hnd hfind
          rw [current_size_excluding_eq_exclSum] at hgt
          simp only [] at h1 ⊢
          omega
  · intro m id now blk hfind hgt
    simp [AgentMemory.move_into_context, hfind, hgt]

/-- Closed instantiation of `claim_C2_budget_enforcement`: moving block A
out of the scenario memory preserves the context budget. -/
theorem claim_C2_witness :
    ((scenarioMemory.move_out_of_context 1 10).2).context_size ≤
      ((scenarioMemory.move_out_of_context 1 10).2).config.max_context_size :=
  claim_C2_budget_enforcement.1 scenarioMemory 1 10 (by decide)

/-- C2 counterexample: `add_block` and `update_block` do not check the
context budget.  With `max_context_size = 0`, `add_block` of an in-context
block of size 1 succeeds and leaves `context_size() = 1 > 0`; likewise,
on a memory satisfying the invariant, `update_block` growing an
in-context block succeeds and breaks it. -/
theorem claim_C2_counterexample :
    ((ceMemory.add_block (MemoryBlock.new 1 "note" "x" 0)).1 = .ok 1 ∧
     ((ceMemory.add_block (MemoryBlock.new 1 "note" "x" 0)).2).context_size = 1 ∧
     ceMemory.config.max_context_size = 0) ∧
    (({ ceMemory with blocks := [MemoryBlock.new 1 "note" "" 0] } : AgentMemory).context_size = 0 ∧
     (({ ceMemory with blocks := [MemoryBlock.new 1 "note" "" 0] } : AgentMemory).update_block 1 "x" 5).1 = .ok () ∧
     ((({ ceMemory with blocks := [MemoryBlock.new 1 "note" "" 0] } : AgentMemory).update_block 1 "x" 5).2).context_size = 1) := by
  decide

/-- C6: a value update longer than `max_size` is rejected with
`BlockSizeExceeded` and leaves the block (value and `updated_at`
included) and the surrounding store unchanged, through
`MemoryBlock::update_value`, `AgentMemory::update_block` and
`SharedMemoryManager::update_block`; an update within `max_size`, or any
update when `max_size` is unset, is accepted. -/
theorem claim_C6_max_size_enforcement :
    (∀ (b : MemoryBlock) (maxs : Nat) (new_val : String) (now : Nat),
        b.max_size = some maxs → new_val.length > maxs →
        b.update_value new_val now = .error (.blockSizeExceeded b.label maxs new_val.length)) ∧
    (∀ (b : MemoryBlock) (maxs : Nat) (new_val : String) (now : Nat),
        b.max_size = some maxs → new_val.length ≤ maxs →
        b.update_value new_val now = .ok { b with value := new_val, updated_at := now }) ∧
    (∀ (b : MemoryBlock) (new_val : String) (now : Nat),
        b.max_size = none →
        b.update_value new_val now = .ok { b with value := new_val, updated_at := now }) ∧
    (∀ (m : AgentMemory) (id : Nat) (new_val : String) (now : Nat)
        (blk : MemoryBlock) (maxs : Nat),
        findBlock m.blocks id = some blk → blk.max_size = some maxs →
        new_val.length > maxs →
        m.update_block id new_val now =
          (.error (.blockSizeExceeded blk.label maxs new_val.length), m)) ∧
    (∀ (s : SharedMemoryManager) (id : Nat) (new_val : String) (now : Nat)
        (blk : MemoryBlock) (maxs : Nat),
        findBlock s.blocks id = some blk → blk.max_size = some maxs →
        new_val.length > maxs →
        s.update_block id new_val now =
          (.error (.blockSizeExceeded blk.label maxs new_val.length), s)) ∧
    (∀ (m : AgentMemory) (id : Nat) (new_val : String) (now : Nat) (blk : MemoryBlock),
        findBlock m.blocks id = some blk →
        (blk.max_size = none ∨ ∃ maxs, blk.max_size = some maxs ∧ new_val.length ≤ maxs) →
        (m.update_block id new_val now).1 = .ok ()) ∧
    (∀ (s : SharedMemoryManager) (id : Nat) (new_val : String) (now : Nat) (blk : MemoryBlock),
        findBlock s.blocks id = some blk →
        (blk.max_size = none ∨ ∃ maxs, blk.max_size = some maxs ∧ new_val.length ≤ maxs) →
        (s.update_block id new_val now).1 = .ok ()) := by
  have hrej : ∀ (b : MemoryBlock) (maxs : Nat) (new_val : String) (now : Nat),
      b.max_size = some maxs → new_val.length > maxs →
      b.update_value new_val now = .error (.blockSizeExceeded b.label maxs new_val.length) := by
    intro b maxs new_val now hmax hlen
    simp [MemoryBlock.update_value, hmax, hlen]
  have hok : ∀ (b : MemoryBlock) (new_val : String) (now : Nat),
      (b.max_size = none ∨ ∃ maxs, b.max_size = some maxs ∧ new_val.length ≤ maxs) →
      b.update_value new_val now = .ok { b with value := new_val, updated_at := now } := by
    intro b new_val now h
    rcases h with h | ⟨maxs, hmax, hlen⟩
    · simp [MemoryBlock.update_value, h]
    · have : ¬ new_val.length > maxs := by omega
      simp [MemoryBlock.update_value, hmax, this]
  refine ⟨hrej, ?_, ?_, ?_, ?_, ?_, ?_⟩
  · intro b maxs new_val now hmax hlen
    exact hok b new_val now (.inr ⟨maxs, hmax, hlen⟩)
  · intro b new_val now hmax
    exact hok b new_val now (.inl hmax)
  · intro m id new_val now blk maxs hfind hmax hlen
    simp [AgentMemory.update_block, hfind, hrej blk maxs new_val now hmax hlen]
  · intro s id new_val now blk maxs hfind hmax hlen
    simp [SharedMemoryManager.update_block, hfind, hrej blk maxs new_val now hmax hlen]
  · intro m id new_val now blk hfind h
    simp [AgentMemory.update_block, hfind, hok blk new_val now h]
  · intro s id new_val now blk hfind h
    simp [SharedMemoryManager.update_block, hfind, hok blk new_val now h]

/-- Closed instantiation of `claim_C6_max_size_enforcement`: updating a
block capped at 3 characters with a 4-character value is rejected. -/
theorem claim_C6_witness :
    cappedBlock.update_value "abcd" 5 =
      .error (.blockSizeExceeded cappedBlock.label 3 "abcd".length) :=
  claim_C6_max_size_enforcement.1 cappedBlock 3 "abcd" 5 rfl (by decide)

/-- The pure list transformation performed by the archival loop: for each
snapshot block that is archivable, clear the flag of the stored block
with the same id. -/
def archList (l : List MemoryBlock) (S : List MemoryBlock) (now : Nat) : List MemoryBlock :=
  S.foldl
    (fun acc b =>
      if archivable b now then updateBlock acc b.id (fun c => c.set_in_context false now)
      else acc)
    l

theorem archList_nil (l : List MemoryBlock) (now : Nat) : archList l [] now = l := rfl

theorem archList_cons (l : List MemoryBlock) (b : MemoryBlock) (S : List MemoryBlock)
    (now : Nat) :
    archList l (b :: S) now =
      archList (if archivable b now = true then
                  updateBlock l b.id fun c => c.set_in_context false now
                else l) S now := rfl

theorem archive_fold_eq (S : List MemoryBlock) (m : AgentMemory) (now : Nat)
    (hS : ∀ b ∈ S, ∃ c ∈ m.blocks, c.id = b.id) :
    S.foldl
      (fun acc block =>
        match acc.1 with
        | .error _ => acc
        | .ok _ =>
            if archivable block now then acc.2.move_out_of_context block.id now
            else acc)
      ((.ok (), m) : Except Err Unit × AgentMemory)
    = (.ok (), { m with blocks := archList m.blocks S now }) := by
  induction S generalizing m with
  | nil => simp [archList_nil]
  | cons b S' ih =>
      rw [List.foldl_cons, archList_cons]
      by_cases hA : archivable b now
      · obtain ⟨blk, hfind⟩ := findBlock_isSome_of_mem m.blocks b.id (hS b (by simp))
        simp only [hA, if_pos]
        rw [move_out_of_context_ok m b.id now blk hfind]
        exact ih { m with blocks := updateBlock m.blocks b.id fun c => c.set_in_context false now }
          (by
            intro c hc
            obtain ⟨d, hd, hdid⟩ := hS c (by simp [hc])
            have hmem : (fun x => if x.id == b.id then x.set_in_context false now else x) d ∈
                updateBlock m.blocks b.id fun x => x.set_in_context false now :=
              List.mem_map_of_mem _ hd
            rcases Decidable.em (d.id = b.id) with h | h
            · refine ⟨d.set_in_context false now, ?_, hdid⟩
              simpa [h] using hmem
            · refine ⟨d, ?_, hdid⟩
              simpa [h] using hmem)
      · have hA' : archivable b now = false := by simpa using hA
        simp only [hA', Bool.false_eq_true, if_false]
        exact ih m fun c hc => hS c (List.mem_cons_of_mem _ hc)

theorem archList_eq (S : List MemoryBlock) (now : Nat) :
    (S.map MemoryBlock.id).Nodup → ∀ l : List MemoryBlock,
    archList l S now =
      l.map (fun x =>
        if S.any (fun b => archivable b now && b.id == x.id) then
          x.set_in_context false now
        else x) := by
  induction S with
  | nil =>
      intro _ l
      simp [archList_nil]
  | cons b S' ih =>
      intro hS l
      rw [List.map_cons, List.nodup_cons] at hS
      have hnotin : ∀ c ∈ S', ¬ c.id = b.id := fun c hc hcb =>
        hS.1 (hcb ▸ List.mem_map_of_mem MemoryBlock.id hc)
      rw [archList_cons]
      by_cases hA : archivable b now
      · rw [if_pos hA, ih hS.2]
        rw [show updateBlock l b.id (fun c => c.set_in_context false now) =
              l.map (fun x => if x.id == b.id then x.set_in_context false now else x)
            from rfl]
        rw [List.map_map]
        apply List.map_congr_left
        intro x _
        by_cases hx : x.id = b.id
        · have hany : S'.any
              (fun c => archivable c now && c.id == (x.set_in_context false now).id) = false := by
            rw [List.any_eq_false]
            intro c hc
            simp [MemoryBlock.set_in_context, hx, hnotin c hc]
          simp [List.any_cons, hA, hx, hany, MemoryBlock.set_in_context]
        · have h2 : (b.id == x.id) = false := by
            simp only [beq_eq_false_iff_ne, ne_eq]
            exact fun h => hx h.symm
          simp [List.any_cons, hx, h2, MemoryBlock.set_in_context]
      · have hA' : archivable b now = false := by simpa using hA
        rw [if_neg hA, ih hS.2]
        apply List.map_congr_left
        intro x _
        simp [List.any_cons, hA']

/-- C7: one archival step moves out of context exactly the in-context
blocks last updated more than one hour ago whose label is not
`persona` / `organization` / `system`; every other block keeps its
`in_context` flag, and no block's value is modified. -/
theorem claim_C7_archival_step (m : AgentMemory) (now : Nat)
    (hnd : (m.blocks.map MemoryBlock.id).Nodup) :
    (perform_archival m now).1 = .ok () ∧
    (perform_archival m now).2.blocks =
      m.blocks.map (fun x =>
        if x.in_context && archivable x now then x.set_in_context false now else x) ∧
    (perform_archival m now).2.blocks.map MemoryBlock.value =
      m.blocks.map MemoryBlock.value := by
  have hfold := archive_fold_eq m.in_context_blocks m now
    (fun b hb => ⟨b, List.mem_of_mem_filter hb, rfl⟩)
  have hpa : perform_archival m now =
      (.ok (), { m with blocks := archList m.blocks m.in_context_blocks now }) := hfold
  have hsub : (m.in_context_blocks.map MemoryBlock.id).Sublist (m.blocks.map MemoryBlock.id) :=
    (List.filter_sublist m.blocks).map MemoryBlock.id
  have hSnd : (m.in_context_blocks.map MemoryBlock.id).Nodup := List.Nodup.sublist hsub hnd
  have harch := archList_eq m.in_context_blocks now hSnd m.blocks
  have hcondall : ∀ x ∈ m.blocks,
      (m.in_context_blocks.any fun b => archivable b now && b.id == x.id) =
        (x.in_context && archivable x now) := by
    intro x hx
    cases hc : x.in_context with
    | false =>
        simp only [Bool.false_and]
        rw [List.any_eq_false]
        intro c hcmem hp
        have hcin := List.mem_filter.mp hcmem
        simp only [Bool.and_eq_true, beq_iff_eq] at hp
        have hceq : c = x := List.inj_on_of_nodup_map hnd hcin.1 hx hp.2
        rw [hceq] at hcin
        rw [hc] at hcin
        exact Bool.false_ne_true hcin.2
    | true =>
        simp only [Bool.true_and]
        cases ha : archivable x now with
        | false =>
            rw [List.any_eq_false]
            intro c hcmem hp
            have hcin := List.mem_filter.mp hcmem
            simp only [Bool.and_eq_true, beq_iff_eq] at hp
            have hceq : c = x := List.inj_on_of_nodup_map hnd hcin.1 hx hp.2
            rw [hceq] at hp
            rw [ha] at hp
            exact Bool.false_ne_true hp.1
        | true =>
            rw [List.any_eq_true]
            exact ⟨x, List.mem_filter.mpr ⟨hx, hc⟩, by simp [ha]⟩
  refine ⟨by rw [hpa], ?_, ?_⟩
  · rw [hpa]
    show archList m.blocks m.in_context_blocks now = _
    rw [harch]
    apply List.map_congr_left
    intro x hx
    rw [hcondall x hx]
  · rw [hpa]
    show (archList m.blocks m.in_context_blocks now).map MemoryBlock.value = _
    rw [harch, List.map_map]
    apply List.map_congr_left
    intro x _
    simp only [Function.comp_apply]
    split <;> rfl

/-- Closed instantiation of `claim_C7_archival_step`: a stale `task` block
is archived while a stale `persona` block stays in context. -/
theorem claim_C7_witness :
    (perform_archival
        { agent_id := 0
          blocks := [MemoryBlock.new 1 "persona" "p" 0, MemoryBlock.new 2 "task" "t" 0]
          shared_blocks := []
          config := { max_context_size := 100, enable_agentic_control := true,
                      enable_sleeptime := false, storage_backend := .memory }
          message_history := [] } 7200).2.blocks =
      [MemoryBlock.new 1 "persona" "p" 0,
       (MemoryBlock.new 2 "task" "t" 0).set_in_context false 7200] := by
  rw [(claim_C7_archival_step _ 7200 (by decide)).2.1]
  decide

/-! ## Helper lemmas: the per-run event-log invariant -/

/-- The event-log bookkeeping invariant of a run: `last_seq_id` and
`total_events` both equal the number of stored events, and the stored
`seq_id`s are exactly `0, 1, ..., n-1` in order. -/
def EventLogInv (run : BackgroundRun) : Prop :=
  run.metadata.last_seq_id = run.events.length ∧
  run.metadata.total_events = run.events.length ∧
  run.events.map RunEvent.seq_id = List.range run.events.length

theorem appendEvent_inv (run : BackgroundRun) (ty : RunEventType) (data : String)
    (now : Nat) (h : EventLogInv run) : EventLogInv (appendEvent run ty data now) := by
  obtain ⟨h1, h2, h3⟩ := h
  refine ⟨?_, ?_, ?_⟩ <;>
    simp [appendEvent, h1, h2, h3, List.range_succ]

theorem newRun_inv (rid : Nat) (an inp : String) (t0 : Nat) (h : TaskHandle) :
    EventLogInv (newRun rid an inp t0 h) :=
  ⟨rfl, rfl, rfl⟩

theorem applyOp_inv (run : BackgroundRun) (op : ExecOp) (h : EventLogInv run) :
    EventLogInv (applyOp run op) := by
  cases op with
  | opStarted a i n => exact appendEvent_inv _ _ _ _ h
  | opSucceeded c t n => exact appendEvent_inv _ _ _ _ (appendEvent_inv _ _ _ _ h)
  | opFailed e n => exact appendEvent_inv _ _ _ _ h
  | opCancel n =>
      show EventLogInv (cancelStep run n)
      cases hh : run.task_handle with
      | none => simpa [cancelStep, hh] using h
      | some hdl =>
          have hc : cancelStep run n =
              appendEvent { run with task_handle := none, metadata := { run.metadata with status := .cancelled, completed_at := some n } } .failed "error: Cancelled by user" n := by
            simp [cancelStep, hh]
          rw [hc]
          exact appendEvent_inv _ _ _ _ h

theorem runTrace_inv (run : BackgroundRun) (ops : List ExecOp) (h : EventLogInv run) :
    EventLogInv (runTrace run ops) := by
  induction ops generalizing run with
  | nil => exact h
  | cons op rest ih => exact ih (applyOp run op) (applyOp_inv run op h)

theorem findRun_singleton (rid : Nat) (r : BackgroundRun) :
    findRun ⟨[(rid, r)]⟩ rid = some r := by
  simp [findRun]

/-! ## Claims about the background executor -/

/-- C3: after any trace of the executor's event-appending operations
(start, success, failure, cancellation), the stored events carry the
`seq_id`s `0, 1, 2, ...` in append order with no gaps or duplicates;
`stream_events(id, none)` returns all events, and `stream_events(id,
some k)` returns exactly the events with `seq_id > k`, in increasing
`seq_id` order. -/
theorem claim_C3_seq_ids_and_streaming (ops : List ExecOp) (rid : Nat)
    (an inp : String) (t0 : Nat) (h : TaskHandle) (k : Nat) :
    (runTrace (newRun rid an inp t0 h) ops).events.map RunEvent.seq_id =
      List.range (runTrace (newRun rid an inp t0 h) ops).events.length ∧
    BackgroundExecutor.stream_events ⟨[(rid, runTrace (newRun rid an inp t0 h) ops)]⟩ rid none =
      .ok (runTrace (newRun rid an inp t0 h) ops).events ∧
    ∃ l, BackgroundExecutor.stream_events
        ⟨[(rid, runTrace (newRun rid an inp t0 h) ops)]⟩ rid (some k) = .ok l ∧
      List.Pairwise (fun a b => a.seq_id < b.seq_id) l ∧
      ∀ e, e ∈ l ↔ e ∈ (runTrace (newRun rid an inp t0 h) ops).events ∧ e.seq_id > k := by
  have hinv := runTrace_inv (newRun rid an inp t0 h) ops (newRun_inv rid an inp t0 h)
  have hfind := findRun_singleton rid (runTrace (newRun rid an inp t0 h) ops)
  refine ⟨hinv.2.2, ?_, ?_⟩
  · simp [BackgroundExecutor.stream_events, hfind]
  · refine ⟨(runTrace (newRun rid an inp t0 h) ops).events.filter
        (fun e => decide (e.seq_id > k)), ?_, ?_, ?_⟩
    · simp [BackgroundExecutor.stream_events, hfind]
    · have hp : List.Pairwise (· < ·)
          ((runTrace (newRun rid an inp t0 h) ops).events.map RunEvent.seq_id) := by
        rw [hinv.2.2]
        exact List.pairwise_lt_range _
      have hp2 : List.Pairwise (fun a b => a.seq_id < b.seq_id)
          (runTrace (newRun rid an inp t0 h) ops).events := List.pairwise_map.mp hp
      exact List.Pairwise.sublist (List.filter_sublist _) hp2
    · intro e
      simp [List.mem_filter]

/-- C9: after any trace of executor operations, `last_seq_id =
total_events = number of stored events`; hence `last_seq_id` is one
greater than the `seq_id` of the most recently appended event, and `0`
when no event exists. -/
theorem claim_C9_metadata_counts (ops : List ExecOp) (rid : Nat) (an inp : String)
    (t0 : Nat) (h : TaskHandle) :
    (runTrace (newRun rid an inp t0 h) ops).metadata.last_seq_id =
      (runTrace (newRun rid an inp t0 h) ops).events.length ∧
    (runTrace (newRun rid an inp t0 h) ops).metadata.total_events =
      (runTrace (newRun rid an inp t0 h) ops).events.length ∧
    ((runTrace (newRun rid an inp t0 h) ops).events = [] →
      (runTrace (newRun rid an inp t0 h) ops).metadata.last_seq_id = 0) ∧
    (∀ e, (runTrace (newRun rid an inp t0 h) ops).events.getLast? = some e →
      (runTrace (newRun rid an inp t0 h) ops).metadata.last_seq_id = e.seq_id + 1) := by
  have hinv := runTrace_inv (newRun rid an inp t0 h) ops (newRun_inv rid an inp t0 h)
  refine ⟨hinv.1, hinv.2.1, ?_, ?_⟩
  · intro he
    rw [hinv.1, he]
    rfl
  · intro e he
    obtain ⟨ys, hys⟩ := List.getLast?_eq_some_iff.mp he
    have hmap := hinv.2.2
    rw [hys] at hmap
    have hlen : (ys ++ [e]).length = ys.length + 1 := by simp
    rw [hlen, List.range_succ, List.map_append] at hmap
    simp only [List.map_cons, List.map_nil] at hmap
    have hlast := congrArg List.getLast? hmap
    rw [List.getLast?_concat, List.getLast?_concat] at hlast
    have heq : e.seq_id = ys.length := by
      simpa using hlast
    rw [hinv.1, hys, hlen, heq]

theorem findPair_set (l : List (Nat × BackgroundRun)) (rid : Nat) (r' : BackgroundRun)
    (h : (l.find? (fun p => p.1 == rid)).isSome) :
    (l.map (fun p => if p.1 == rid then (p.1, r') else p)).find? (fun p => p.1 == rid) =
      some (rid, r') := by
  induction l with
  | nil => simp at h
  | cons q t ih =>
      by_cases hq : q.1 = rid
      · have hb : (q.1 == rid) = true := by simp [hq]
        simp only [List.map_cons, hb, if_pos]
        rw [List.find?_cons_of_pos _ (by simp [hq])]
        rw [hq]
      · have hb : (q.1 == rid) = false := by simp [hq]
        simp only [List.map_cons, hb, Bool.false_eq_true, if_false]
        rw [List.find?_cons_of_neg _ (by simp [hq])]
        apply ih
        rw [List.find?_cons_of_neg _ (by simp [hq])] at h
        exact h

theorem findRun_setRun (ex : BackgroundExecutor) (rid : Nat) (r r' : BackgroundRun)
    (h : findRun ex rid = some r) :
    findRun (setRun ex rid r') rid = some r' := by
  have hs : (ex.runs.find? (fun p => p.1 == rid)).isSome := by
    simp only [findRun] at h
    cases hf : ex.runs.find? (fun p => p.1 == rid) with
    | none => rw [hf] at h; simp at h
    | some q => rfl
  simp only [findRun, setRun]
  rw [findPair_set ex.runs rid r' hs]
  rfl

theorem setRun_self (ex : BackgroundExecutor) (rid : Nat) (r : BackgroundRun)
    (hnd : (ex.runs.map Prod.fst).Nodup) (h : findRun ex rid = some r) :
    setRun ex rid r = ex := by
  simp only [findRun] at h
  obtain ⟨q, hq, hq2⟩ : ∃ q, ex.runs.find? (fun p => p.1 == rid) = some q ∧ q.2 = r := by
    cases hf : ex.runs.find? (fun p => p.1 == rid) with
    | none => rw [hf] at h; simp at h
    | some q =>
        rw [hf] at h
        exact ⟨q, rfl, by simpa using h⟩
  have hqmem : q ∈ ex.runs := List.mem_of_find?_eq_some hq
  have hqkey : q.1 = rid := by simpa using List.find?_some hq
  have hpair : ∀ p ∈ ex.runs, (if p.1 == rid then (p.1, r) else p) = p := by
    intro p hp
    by_cases hpk : p.1 = rid
    · have hpq : p = q := List.inj_on_of_nodup_map hnd hp hqmem (by rw [hpk, hqkey])
      simp only [hpk, beq_self_eq_true, if_pos]
      rw [hpq, ← hq2, ← hqkey]
    · simp [hpk]
  have hmap : ex.runs.map (fun p => if p.1 == rid then (p.1, r) else p) = ex.runs := by
    rw [List.map_congr_left hpair]
    simp
  show ({ runs := ex.runs.map (fun p => if p.1 == rid then (p.1, r) else p) } : BackgroundExecutor) = ex
  rw [hmap]

/-- C5: the first `wait_for_completion` on a run whose completion ticket
is still held takes the ticket; the second (and so every subsequent) call
on the same id fails with `HandleAlreadyConsumed` and leaves the registry
unchanged instead of blocking or returning a stale result. -/
theorem claim_C5_wait_consumes_ticket (ex : BackgroundExecutor) (rid : Nat)
    (r : BackgroundRun) (h : TaskHandle) (hfind : findRun ex rid = some r)
    (hh : r.task_handle = some h) :
    ex.wait_for_completion rid = (.ok h, setRun ex rid { r with task_handle := none }) ∧
    (setRun ex rid { r with task_handle := none }).wait_for_completion rid =
      (.error .handleAlreadyConsumed, setRun ex rid { r with task_handle := none }) := by
  constructor
  · simp [BackgroundExecutor.wait_for_completion, hfind, hh]
  · have hf2 : findRun (setRun ex rid { r with task_handle := none }) rid =
        some { r with task_handle := none } :=
      findRun_setRun ex rid r _ hfind
    simp [BackgroundExecutor.wait_for_completion, hf2]

/-- Closed instantiation of `claim_C5_wait_consumes_ticket` at a freshly
registered run. -/
theorem claim_C5_witness :
    (BackgroundExecutor.execute_async .new 1 "a" "hi" 0 ⟨7⟩).2.wait_for_completion 1 =
      (.ok ⟨7⟩, setRun (BackgroundExecutor.execute_async .new 1 "a" "hi" 0 ⟨7⟩).2 1
        { newRun 1 "a" "hi" 0 ⟨7⟩ with task_handle := none }) ∧
    (setRun (BackgroundExecutor.execute_async .new 1 "a" "hi" 0 ⟨7⟩).2 1
        { newRun 1 "a" "hi" 0 ⟨7⟩ with task_handle := none }).wait_for_completion 1 =
      (.error .handleAlreadyConsumed,
       setRun (BackgroundExecutor.execute_async .new 1 "a" "hi" 0 ⟨7⟩).2 1
        { newRun 1 "a" "hi" 0 ⟨7⟩ with task_handle := none }) :=
  claim_C5_wait_consumes_ticket (BackgroundExecutor.execute_async .new 1 "a" "hi" 0 ⟨7⟩).2 1
    (newRun 1 "a" "hi" 0 ⟨7⟩) ⟨7⟩ (by decide) (by decide)

theorem pageStart_le_length (events : List RunEvent) (cursor : Option Nat) :
    BackgroundExecutor.pageStart events cursor ≤ events.length := by
  cases cursor with
  | none => exact Nat.zero_le _
  | some c =>
      simp only [BackgroundExecutor.pageStart]
      cases hfi : events.findIdx? (fun e => decide (e.seq_id > c)) with
      | none => exact Nat.le_refl _
      | some i =>
          exact Nat.le_of_lt (List.findIdx?_eq_some_iff_findIdx_eq.mp hfi).1

/-- C10: for a known run, `get_events_paginated` returns `next_cursor =
Some(seq_id of the last page event)` whenever the page is non-empty —
also when `has_more` is false — and `next_cursor = None` exactly when the
page is empty; `has_more` is true exactly when events remain after the
returned page. -/
theorem claim_C10_pagination (ex : BackgroundExecutor) (rid : Nat) (cursor : Option Nat)
    (limit : Nat) (r : BackgroundRun) (hfind : findRun ex rid = some r) :
    ∃ p, ex.get_events_paginated rid cursor limit = .ok p ∧
      (p.next_cursor = none ↔ p.events = []) ∧
      (∀ e, p.events.getLast? = some e → p.next_cursor = some e.seq_id) ∧
      (p.has_more = true ↔ r.events.drop (BackgroundExecutor.pageStart r.events cursor + p.events.length) ≠ []) := by
  have hs := pageStart_le_length r.events cursor
  simp only [BackgroundExecutor.get_events_paginated, hfind]
  refine ⟨_, rfl, ?_, ?_, ?_⟩
  · simp [List.getLast?_eq_none_iff]
  · intro e he
    simp only [] at he ⊢
    rw [he]
    rfl
  · have hlen : ((r.events.drop (BackgroundExecutor.pageStart r.events cursor)).take
        (min (BackgroundExecutor.pageStart r.events cursor + limit) r.events.length -
          BackgroundExecutor.pageStart r.events cursor)).length =
        min (BackgroundExecutor.pageStart r.events cursor + limit) r.events.length -
          BackgroundExecutor.pageStart r.events cursor := by
      rw [List.length_take, List.length_drop]
      omega
    simp only [hlen, decide_eq_true_iff, Ne, List.drop_eq_nil_iff]
    omega

/-- Closed instantiation of `claim_C10_pagination` at a completed run. -/
theorem claim_C10_witness :
    ∃ p, BackgroundExecutor.get_events_paginated
        ⟨[(1, runTrace (newRun 1 "a" "hi" 0 ⟨7⟩) [.opStarted "a" "hi" 1, .opSucceeded "done" 0 2])]⟩
        1 (some 0) 2 = .ok p ∧
      (p.next_cursor = none ↔ p.events = []) ∧
      (∀ e, p.events.getLast? = some e → p.next_cursor = some e.seq_id) ∧
      (p.has_more = true ↔
        (runTrace (newRun 1 "a" "hi" 0 ⟨7⟩)
            [.opStarted "a" "hi" 1, .opSucceeded "done" 0 2]).events.drop
          (BackgroundExecutor.pageStart
            (runTrace (newRun 1 "a" "hi" 0 ⟨7⟩)
              [.opStarted "a" "hi" 1, .opSucceeded "done" 0 2]).events (some 0) +
           p.events.length) ≠ []) :=
  claim_C10_pagination _ 1 (some 0) 2 _ (findRun_singleton 1 _)

/-- A run that has completed normally while its completion ticket is
still held by the registry (nobody called `wait_for_completion`). -/
def completedRun : BackgroundRun :=
  runTrace (newRun 1 "agent" "hi" 0 ⟨7⟩) [.opStarted "agent" "hi" 1, .opSucceeded "done" 0 2]

/-- A registry holding only `completedRun`. -/
def completedExec : BackgroundExecutor := ⟨[(1, completedRun)]⟩

/-- C1 counterexample: `cancel_run` on an already-`Completed` run whose
completion ticket is still held is not a no-op — the run's status flips
from `Completed` to `Cancelled` and a cancellation event is appended. -/
theorem claim_C1_counterexample :
    completedRun.metadata.status = .completed ∧
    completedRun.task_handle = some ⟨7⟩ ∧
    ((completedExec.cancel_run 1 3).2.runs.map fun p => p.2.metadata.status) = [.cancelled] ∧
    ((completedExec.cancel_run 1 3).2.runs.map fun p => p.2.events.length) =
      [completedRun.events.length + 1] ∧
    (completedExec.cancel_run 1 3).1 = .ok () := by
  decide

/-- C1 (amended): `cancel_run` on an already-`Completed` run is a no-op
(status stays `Completed`, no event appended, registry unchanged) only
when the run's completion ticket has already been taken; when the ticket
is still held, `cancel_run` takes it, sets the status to `Cancelled` and
appends a `Failed`-typed event even though the run had completed. -/
theorem claim_C1_cancel_run_amended (ex : BackgroundExecutor) (rid now : Nat)
    (r : BackgroundRun) (hnd : (ex.runs.map Prod.fst).Nodup)
    (hfind : findRun ex rid = some r) :
    (r.task_handle = none → ex.cancel_run rid now = (.ok (), ex)) ∧
    (∀ h, r.task_handle = some h →
      ∃ ex', ex.cancel_run rid now = (.ok (), ex') ∧
        findRun ex' rid = some (cancelStep r now) ∧
        (cancelStep r now).metadata.status = .cancelled ∧
        (cancelStep r now).events.length = r.events.length + 1) := by
  constructor
  · intro hh
    have hcs : cancelStep r now = r := by simp [cancelStep, hh]
    simp only [BackgroundExecutor.cancel_run, hfind, hcs]
    rw [setRun_self ex rid r hnd hfind]
  · intro h hh
    refine ⟨setRun ex rid (cancelStep r now), ?_, ?_, ?_, ?_⟩
    · simp [BackgroundExecutor.cancel_run, hfind]
    · exact findRun_setRun ex rid r _ hfind
    · simp [cancelStep, hh, appendEvent]
    · simp [cancelStep, hh, appendEvent]

/-- A completed run whose ticket has already been consumed. -/
def consumedRun : BackgroundRun := { completedRun with task_handle := none }

/-- Closed instantiation of `claim_C1_cancel_run_amended`: cancelling a
completed run whose ticket was consumed changes nothing. -/
theorem claim_C1_witness :
    BackgroundExecutor.cancel_run ⟨[(1, consumedRun)]⟩ 1 3 = (.ok (), ⟨[(1, consumedRun)]⟩) :=
  (claim_C1_cancel_run_amended ⟨[(1, consumedRun)]⟩ 1 3 consumedRun
    (by decide) (by decide)).1 rfl

/-- Closed instantiation of `claim_C9_metadata_counts`: after a started
and a successful-completion mutation, `last_seq_id` is one greater than
the last stored event's `seq_id`. -/
theorem claim_C9_witness :
    (runTrace (newRun 1 "a" "x" 0 ⟨5⟩)
        [.opStarted "a" "x" 1, .opSucceeded "done" 0 2]).metadata.last_seq_id =
      ({ seq_id := 2, timestamp := 2, event_type := .completed, data := "" } : RunEvent).seq_id + 1 :=
  (claim_C9_metadata_counts [.opStarted "a" "x" 1, .opSucceeded "done" 0 2] 1 "a" "x" 0 ⟨5⟩).2.2.2
    { seq_id := 2, timestamp := 2, event_type := .completed, data := "" } (by decide)
